import Mathlib

/-!
Verification development for the DebIDE Task Execution & Extension Subsystem.

Shallow embedding of `src/debide/tasks.py`, `src/debide/plugins.py`, and the
task-runner / executable-pre-flight portions of `src/debide/app.py`.
Python strings are modelled as `String` (or `List Char` where character-level
reasoning is needed), Python lists as `List`, dict-shaped task mappings as
association lists, and exceptions as `Except` / `Option` results.
-/

namespace DebIDE

/-! ### Character-level string helpers shared by several components

Python `str.strip()` removes the whitespace characters
`' '`, `'\t'`, `'\n'`, `'\r'`, `'\x0b'`, `'\x0c'` from both ends. -/

/-- Whitespace as stripped by Python `str.strip()` (ASCII subset). -/
def isStripSpace (c : Char) : Bool :=
  c = ' ' || c = '\t' || c = '\n' || c = '\r' || c = '\x0b' || c = '\x0c'

/-- Remove trailing strip-whitespace (the tail half of Python `str.strip()`). -/
def sback (l : List Char) : List Char :=
  (l.reverse.dropWhile isStripSpace).reverse

/-- Python `str.strip()` on a character list. -/
def stripChars (l : List Char) : List Char :=
  sback (l.dropWhile isStripSpace)

/-- Python `str.strip()` on a `String`. -/
def stripString (s : String) : String :=
  String.mk (stripChars s.data)

/-! ### Model of `src/debide/tasks.py` -/

/-- A Python value supplied in the `env` slot of a raw task mapping: either a
mapping (modelled as an association list) or a non-mapping value, of which only
the Python truthiness is relevant to `coerce_tasks`. -/
inductive EnvVal where
  | pymap (entries : List (String × String))
  | nonMapping (truthy : Bool)
deriving DecidableEq, Repr

/-- An untrusted task mapping as consumed by `coerce_tasks`; `none` models an
absent key. -/
structure RawTask where
  name : Option String := none
  command : Option String := none
  description : Option String := none
  workingDir : Option String := none
  env : Option EnvVal := none
deriving DecidableEq, Repr

/-- `TaskSpec` from `src/debide/tasks.py`. -/
structure TaskSpec where
  name : String
  command : String
  description : String := ""
  workingDir : Option String := none
  env : List (String × String) := []
deriving DecidableEq, Repr

/-- The distinct `TaskConfigurationError` raise sites of `coerce_tasks`. -/
inductive TaskConfigError where
  | missingName
  | missingCommand (name : String)
  | duplicateName (name : String)
  | envNotMapping (name : String)
deriving DecidableEq, Repr

/-- One step of `coerce_tasks`: the `env_mapping = item.get("env") or {}` line.
A falsy value (absent key, empty mapping, falsy non-mapping such as `""`, `0`
or `[]`) is replaced by the empty dict before the `isinstance` check. -/
def envMappingOf (e : Option EnvVal) : EnvVal :=
  match e with
  | none => .pymap []
  | some (.pymap entries) => .pymap entries
  | some (.nonMapping truthy) => if truthy then .nonMapping true else .pymap []

/-- The validated name a raw task gets: `str(item.get("name", "")).strip()`. -/
def rawName (item : RawTask) : String := stripString (item.name.getD "")

/-- The validated command a raw task gets:
`str(item.get("command", "")).strip()`. -/
def rawCommand (item : RawTask) : String := stripString (item.command.getD "")

/-- The loop of `coerce_tasks` from `src/debide/tasks.py`, threading the `seen`
name set; the first invalid mapping aborts with the matching error. -/
def coerceTasksAux : List RawTask → List String → Except TaskConfigError (List TaskSpec)
  | [], _ => .ok []
  | item :: rest, seen =>
    if rawName item = "" then .error .missingName
    else if rawCommand item = "" then .error (.missingCommand (rawName item))
    else if seen.contains (rawName item) then
      .error (.duplicateName (rawName item))
    else
      match envMappingOf item.env with
      | .nonMapping _ => .error (.envNotMapping (rawName item))
      | .pymap entries =>
        match coerceTasksAux rest (rawName item :: seen) with
        | .error err => .error err
        | .ok specs =>
          .ok (⟨rawName item, rawCommand item,
                stripString (item.description.getD ""),
                item.workingDir, entries⟩ :: specs)

/-- `coerce_tasks` from `src/debide/tasks.py`. -/
def coerceTasks (items : List RawTask) : Except TaskConfigError (List TaskSpec) :=
  coerceTasksAux items []

/-- Whether the raw task's `env` slot survives `or {}` as a truthy non-mapping
(the only shape `coerce_tasks` rejects). -/
def envTruthyNonMapping (item : RawTask) : Bool :=
  match item.env with
  | some (.nonMapping true) => true
  | _ => false

/-- The `TaskSpec` a valid raw task is converted to. -/
def mkSpec (item : RawTask) : TaskSpec :=
  ⟨rawName item, rawCommand item, stripString (item.description.getD ""),
   item.workingDir,
   match envMappingOf item.env with
   | .pymap entries => entries
   | .nonMapping _ => []⟩

/-- A raw task that passes all per-item checks of `coerce_tasks`. -/
def GoodItem (item : RawTask) : Prop :=
  rawName item ≠ "" ∧ rawCommand item ≠ "" ∧ envTruthyNonMapping item = false

instance (item : RawTask) : Decidable (GoodItem item) := by
  unfold GoodItem; infer_instance

/-! ### Model of `DebIDEApp._extract_primary_command` (src/debide/app.py)

The pre-flight checker works on raw command strings, modelled here as
`List Char`.  `shlex.split(s, posix=True)` is modelled by an explicit
state machine (`shlexRun`): whitespace-separated words, single quotes taking
everything literally, double quotes in which a backslash escapes only `"` and
`\`, a bare backslash escaping the next character, and a `ValueError`
(modelled as `none`) for an unterminated quote or trailing escape. -/

/-- The whitespace characters of `shlex` (`shlex.whitespace = " \t\r\n"`). -/
def isLexSpace (c : Char) : Bool :=
  c = ' ' || c = '\t' || c = '\r' || c = '\n'

/-- `pat` occurs at the head of `s`. -/
def startsWithSeq : List Char → List Char → Bool
  | _, [] => true
  | [], _ :: _ => false
  | c :: s, d :: pat => c == d && startsWithSeq s pat

/-- `pat` occurs somewhere in `s` (Python `pat in s`). -/
def containsSeq : List Char → List Char → Bool
  | [], pat => pat.isEmpty
  | c :: tail, pat => startsWithSeq (c :: tail) pat || containsSeq tail pat

/-- The part of `s` before the first occurrence of `pat`
(Python `s.split(pat, 1)[0]` when `pat` occurs in `s`). -/
def splitFirst : List Char → List Char → List Char
  | [], _ => []
  | c :: tail, pat =>
    if startsWithSeq (c :: tail) pat then [] else c :: splitFirst tail pat

/-- One iteration of the separator loop of `_extract_primary_command`:
`if separator in stripped: stripped = stripped.split(separator, 1)[0].strip()`. -/
def sepPass (s : List Char) (pat : List Char) : List Char :=
  if containsSeq s pat then stripChars (splitFirst s pat) else s

/-- The shell control operators inspected by `_extract_primary_command`,
in the order the loop visits them: `("&&", "||", "|", ";", "\n")`. -/
def separators : List (List Char) :=
  [['&', '&'], ['|', '|'], ['|'], [';'], ['\n']]

/-- Lexer modes of the `shlex.split(_, posix=True)` model. -/
inductive LexMode where
  | normal | esc | single | double | doubleEsc
deriving DecidableEq, Repr

/-- Flush the pending token, if any. -/
def pushTok : Option (List Char) → List (List Char)
  | none => []
  | some w => [w]

/-- The `shlex` state machine: input characters, current mode, pending token,
emitted tokens.  `none` models `ValueError`. -/
def shlexRun : List Char → LexMode → Option (List Char) → List (List Char) →
    Option (List (List Char))
  | [], .normal, cur, acc => some (acc ++ pushTok cur)
  | [], _, _, _ => none
  | c :: rest, .normal, cur, acc =>
    if isLexSpace c then shlexRun rest .normal none (acc ++ pushTok cur)
    else if c = '\'' then shlexRun rest .single (some (cur.getD [])) acc
    else if c = '"' then shlexRun rest .double (some (cur.getD [])) acc
    else if c = '\\' then shlexRun rest .esc (some (cur.getD [])) acc
    else shlexRun rest .normal (some (cur.getD [] ++ [c])) acc
  | c :: rest, .esc, cur, acc => shlexRun rest .normal (some (cur.getD [] ++ [c])) acc
  | c :: rest, .single, cur, acc =>
    if c = '\'' then shlexRun rest .normal cur acc
    else shlexRun rest .single (some (cur.getD [] ++ [c])) acc
  | c :: rest, .double, cur, acc =>
    if c = '"' then shlexRun rest .normal cur acc
    else if c = '\\' then shlexRun rest .doubleEsc cur acc
    else shlexRun rest .double (some (cur.getD [] ++ [c])) acc
  | c :: rest, .doubleEsc, cur, acc =>
    if c = '"' || c = '\\' then shlexRun rest .double (some (cur.getD [] ++ [c])) acc
    else shlexRun rest .double (some (cur.getD [] ++ ['\\', c])) acc

/-- `shlex.split(s, posix=True)`; `none` models the `ValueError` branch. -/
def shlexTokens (s : List Char) : Option (List (List Char)) :=
  shlexRun s .normal none []

/-- `token.startswith(("'", '"'))` on a post-split token. -/
def startsWithQuote (t : List Char) : Bool :=
  match t with
  | c :: _ => c = '\'' || c = '"'
  | [] => false

/-- The skip test of the token loop of `_extract_primary_command`: the token
contains `=`, does not start with a quote character, and the part before the
first `=` (the key) is non-empty. -/
def isEnvAssignment (t : List Char) : Bool :=
  t.contains '=' && !startsWithQuote t && !(t.takeWhile (fun c => c ≠ '=')).isEmpty

/-- The token loop of `_extract_primary_command`: return the first token that
is not a leading environment assignment. -/
def walkTokens : List (List Char) → Option (List Char)
  | [] => none
  | t :: rest => if isEnvAssignment t then walkTokens rest else some t

/-- `DebIDEApp._extract_primary_command` from src/debide/app.py. -/
def extractPrimaryCommand (command : List Char) : Option (List Char) :=
  let stripped := stripChars command
  if stripped.isEmpty then none
  else
    let seg := separators.foldl sepPass stripped
    match shlexTokens seg with
    | none => none
    | some tokens => walkTokens tokens

/-! ### Model of `src/debide/plugins.py`

Sources, levels and workspaces are `String`s; a plugin task mapping is an
association list.  The texts of the manager's own diagnostic messages are
modelled as tags (one per call site of `_add_message`), while a text supplied
by a plugin through `PluginAPI.log` is wrapped in `custom`. -/

/-- A plugin task mapping (`Mapping[str, object]`), as an association list. -/
abbrev TaskMapping := List (String × String)

/-- The text of a `PluginMessage`: one tag per internal `_add_message` call
site, plus `custom` for plugin-supplied `log` texts. -/
inductive MsgText where
  | failedImport
  | noCallableEntryPoint
  | providerRaised
  | providerNonMappingItem
  | appHookRaised
  | registrationRaised
  | registeredPlugin
  | custom (text : String)
deriving DecidableEq, Repr

/-- `PluginMessage` from src/debide/plugins.py. -/
structure PluginMessage where
  source : String
  level : String
  text : MsgText
deriving DecidableEq, Repr

/-- An element yielded by a task provider: a mapping or some non-mapping
Python value. -/
inductive PyItem where
  | mapping (m : TaskMapping)
  | notMapping
deriving DecidableEq, Repr

/-- The observable behaviour of one task-provider invocation: raise, return
`None`, return a non-`None` value that is not iterable, or yield a list of
elements. -/
inductive ProviderResult where
  | raises
  | retNone
  | retNotIterable
  | iter (items : List PyItem)
deriving DecidableEq, Repr

/-- A task provider, as a function of the workspace path. -/
def Provider := String → ProviderResult

/-- The observable behaviour of a registered app-ready hook. -/
inductive HookBehavior where
  | ok
  | raises
deriving DecidableEq, Repr

/-- The mutable state of `PluginManager`. -/
structure ManagerState where
  loadedPlugins : List String := []
  messages : List PluginMessage := []
  staticTasks : List (String × TaskMapping) := []
  taskProviders : List (String × Provider) := []
  appHooks : List (String × HookBehavior) := []
  appHooksDispatched : Bool := false

/-- Python `str.lower()` (ASCII range, which is all the allowed levels use). -/
def pyLower (s : String) : String := String.mk (s.data.map Char.toLower)

/-- The level normalisation of `PluginManager._add_message`: lowercase, and
anything outside the three allowed levels becomes `"info"`. -/
def normLevel (level : String) : String :=
  let l := pyLower level
  if l = "info" ∨ l = "warning" ∨ l = "error" then l else "info"

/-- `PluginManager._add_message`. -/
def addMessage (st : ManagerState) (source : String) (text : MsgText)
    (level : String) : ManagerState :=
  { st with messages := st.messages ++ [⟨source, normLevel level, text⟩] }

/-- A message level that the manager's queue is allowed to hold. -/
def LevelOk (m : PluginMessage) : Prop :=
  m.level = "info" ∨ m.level = "warning" ∨ m.level = "error"

/-- Every queued message has an allowed level. -/
def MessagesOk (st : ManagerState) : Prop := ∀ m ∈ st.messages, LevelOk m

/-- `PluginManager._register_task` (the mapping has already been copied; its
`TypeError` guard is enforced by the type of `TaskMapping`). -/
def registerTask (st : ManagerState) (source : String) (m : TaskMapping) :
    ManagerState :=
  { st with staticTasks := st.staticTasks ++ [(source, m)] }

/-- `PluginManager._register_task_provider`. -/
def registerTaskProvider (st : ManagerState) (source : String) (p : Provider) :
    ManagerState :=
  { st with taskProviders := st.taskProviders ++ [(source, p)] }

/-- `PluginManager._register_app_hook`. -/
def registerAppHook (st : ManagerState) (source : String) (h : HookBehavior) :
    ManagerState :=
  { st with appHooks := st.appHooks ++ [(source, h)] }

/-- A call a plugin's registration callable makes on its `PluginAPI`
capability object. -/
inductive APICall where
  | addTask (m : TaskMapping)
  | provideTasks (p : Provider)
  | onAppReady (h : HookBehavior)
  | log (text : String) (level : String)

/-- Dispatch one `PluginAPI` call into the manager. -/
def applyCall (st : ManagerState) (source : String) : APICall → ManagerState
  | .addTask m => registerTask st source m
  | .provideTasks p => registerTaskProvider st source p
  | .onAppReady h => registerAppHook st source h
  | .log text level => addMessage st source (.custom text) level

/-- Run the `PluginAPI` calls a registration callable makes, in order. -/
def applyCalls : ManagerState → String → List APICall → ManagerState
  | st, _, [] => st
  | st, source, c :: rest => applyCalls (applyCall st source c) source rest

/-- The behaviour of a registration callable: the API calls it performs, then
whether it raises on the way out. -/
structure RegisterBehavior where
  calls : List APICall
  raises : Bool

/-- A loaded plugin object: it has a callable `register` attribute, or is
itself callable, or exposes no callable entry point. -/
inductive PluginObj where
  | withRegister (behavior : RegisterBehavior)
  | selfCallable (behavior : RegisterBehavior)
  | noEntryPoint

/-- The register-callable selection at the top of
`PluginManager._activate_plugin`. -/
def registerCallableOf : PluginObj → Option RegisterBehavior
  | .withRegister b => some b
  | .selfCallable b => some b
  | .noEntryPoint => none

/-- `PluginManager._activate_plugin` from src/debide/plugins.py. -/
def activatePlugin (st : ManagerState) (obj : PluginObj) (source : String) :
    ManagerState :=
  match registerCallableOf obj with
  | none => addMessage st source .noCallableEntryPoint "warning"
  | some b =>
    let st1 := applyCalls st source b.calls
    if b.raises then addMessage st1 source .registrationRaised "error"
    else
      addMessage { st1 with loadedPlugins := st1.loadedPlugins ++ [source] }
        source .registeredPlugin "info"

/-- The outcome of loading one discovered entry point. -/
inductive LoadResult where
  | loadFails
  | loaded (obj : PluginObj)

/-- `PluginManager.discover`, over the list of entry points the system
enumerates for the fixed group identifier. -/
def discover (st : ManagerState) : List (String × LoadResult) → ManagerState
  | [] => st
  | (name, .loadFails) :: rest =>
    discover (addMessage st name .failedImport "error") rest
  | (name, .loaded obj) :: rest => discover (activatePlugin st obj name) rest

/-- The inner `for item in provided` loop of `PluginManager.collect_tasks`:
a non-mapping element records one error message and is skipped, a mapping
element is appended (copied). -/
def collectItems (st : ManagerState) (source : String) :
    List PyItem → List TaskMapping → List TaskMapping × ManagerState
  | [], acc => (acc, st)
  | .mapping m :: rest, acc => collectItems st source rest (acc ++ [m])
  | .notMapping :: rest, acc =>
    collectItems (addMessage st source .providerNonMappingItem "error") source
      rest acc

/-- The provider loop of `PluginManager.collect_tasks`.  Only the provider
call itself is inside the `try`; iterating a non-`None`, non-iterable return
value raises `TypeError` outside it, which escapes (modelled as `none`). -/
def collectTasksAux (st : ManagerState) (ws : String) :
    List (String × Provider) → List TaskMapping →
    Option (List TaskMapping) × ManagerState
  | [], acc => (some acc, st)
  | (source, provider) :: rest, acc =>
    match provider ws with
    | .raises =>
      collectTasksAux (addMessage st source .providerRaised "error") ws rest acc
    | .retNone => collectTasksAux st ws rest acc
    | .retNotIterable => (none, st)
    | .iter items =>
      let step := collectItems st source items acc
      collectTasksAux step.2 ws rest step.1

/-- `PluginManager.collect_tasks` from src/debide/plugins.py. -/
def collectTasks (st : ManagerState) (ws : String) :
    Option (List TaskMapping) × ManagerState :=
  collectTasksAux st ws st.taskProviders (st.staticTasks.map Prod.snd)

/-- `PluginManager.dispatch_app_ready`; also returns the list of hooks that
were invoked by this call, in invocation order. -/
def dispatchAppReady (st : ManagerState) :
    ManagerState × List (String × HookBehavior) :=
  if st.appHooksDispatched then (st, [])
  else
    let st1 := { st with appHooksDispatched := true }
    (st1.appHooks.foldl
      (fun s sh =>
        match sh.2 with
        | .ok => s
        | .raises => addMessage s sh.1 .appHookRaised "error")
      st1, st1.appHooks)

/-- `PluginManager.consume_messages`. -/
def consumeMessages (st : ManagerState) : List PluginMessage × ManagerState :=
  (st.messages, { st with messages := [] })

/-! ### Model of the task-runner portion of `DebIDEApp` (src/debide/app.py) -/

/-- Notification severities of the Textual `notify` collaborator. -/
inductive Severity where
  | info | warning | error
deriving DecidableEq, Repr

/-- The texts `_start_task` can send to `notify`, tagged per call site; the
missing-executable text carries the executable it names. -/
inductive NoteText where
  | alreadyRunning
  | autosaveFailed
  | commandNotAvailable (missing : String)
deriving DecidableEq, Repr

/-- A `(text, severity)` pair handed to `notify`. -/
structure Notification where
  text : NoteText
  severity : Severity
deriving DecidableEq, Repr

/-- The log line `_start_task` writes for a missing executable. -/
inductive LogLine where
  | commandNotAvailable (missing : String)
deriving DecidableEq, Repr

/-- The `asyncio.Task` handle stored in `DebIDEApp._running_task`. -/
structure TaskHandle where
  taskName : String
  done : Bool
deriving DecidableEq, Repr

/-- The slice of `DebIDEApp` state that `_start_task` reads and writes:
the single running-task slot, the emitted notifications and log lines, the
names of tasks a process was spawned for, the autosave/editor flags, and the
executables resolvable on the search path (`shutil.which`). -/
structure AppState where
  runningTask : Option TaskHandle := none
  notifications : List Notification := []
  logLines : List LogLine := []
  spawned : List String := []
  autosaveEnabled : Bool := false
  editorDirty : Bool := false
  editorHasPath : Bool := false
  saveFails : Bool := false
  pathExecs : List String := []
deriving DecidableEq, Repr

/-- The guard `self._running_task and not self._running_task.done()`. -/
def taskInFlight (st : AppState) : Bool :=
  match st.runningTask with
  | some h => !h.done
  | none => false

/-- `DebIDEApp._detect_missing_executable`: the extracted leading executable,
if it does not resolve on the search path. -/
def detectMissingExecutable (st : AppState) (command : String) : Option String :=
  match extractPrimaryCommand command.data with
  | none => none
  | some snippet =>
    if st.pathExecs.contains (String.mk snippet) then none
    else some (String.mk snippet)

/-- The autosave block of `_start_task`: attempted only when autosave is on,
the buffer is dirty and has a save target; a failing save surfaces an error
notification but does not block the task. -/
def autosaveStep (st : AppState) : AppState :=
  if st.autosaveEnabled && st.editorDirty && st.editorHasPath then
    if st.saveFails then
      { st with notifications := st.notifications ++ [⟨.autosaveFailed, .error⟩] }
    else { st with editorDirty := false }
  else st

/-- `DebIDEApp._start_task` from src/debide/app.py. -/
def startTask (st : AppState) (task : TaskSpec) : AppState :=
  if taskInFlight st then
    { st with notifications := st.notifications ++ [⟨.alreadyRunning, .warning⟩] }
  else
    let st1 := autosaveStep st
    match detectMissingExecutable st1 task.command with
    | some missing =>
      { st1 with
        logLines := st1.logLines ++ [.commandNotAvailable missing]
        notifications :=
          st1.notifications ++ [⟨.commandNotAvailable missing, .error⟩] }
    | none =>
      { st1 with
        runningTask := some ⟨task.name, false⟩
        spawned := st1.spawned ++ [task.name] }

/-! ### Theorems -/

/-- C9: `consume_messages` has drain-once semantics: each call returns
exactly the messages accumulated so far, in accumulation order, and clears the
queue while leaving the rest of the state untouched; an immediately following
call therefore returns an empty result, and concatenating what a call returns
with what remains queued reproduces the original queue, so no message is lost
or delivered twice. -/
theorem c9_consume_messages_drain_once (st : ManagerState) :
    consumeMessages st = (st.messages, { st with messages := [] })
    ∧ consumeMessages (consumeMessages st).2 = ([], { st with messages := [] })
    ∧ (consumeMessages st).1 ++ (consumeMessages st).2.messages = st.messages := by
  refine ⟨rfl, rfl, ?_⟩
  simp [consumeMessages]

/-- C2: at most one task is in flight: while the running handle is present
and not done, `_start_task` rejects synchronously — exactly one warning-level
notification is appended, no process is spawned, and the handle and every
other component of the runner state are left untouched. -/
theorem c2_single_flight (st : AppState) (task : TaskSpec)
    (h : taskInFlight st = true) :
    startTask st task
      = { st with
          notifications := st.notifications ++ [⟨.alreadyRunning, .warning⟩] }
    ∧ (startTask st task).runningTask = st.runningTask
    ∧ (startTask st task).spawned = st.spawned := by
  refine ⟨?_, ?_, ?_⟩ <;> simp [startTask, h]

theorem c2_witness :
    startTask
        { runningTask := some ⟨"build", false⟩, pathExecs := ["flake8"] }
        ⟨"lint", "flake8", "", none, []⟩
      = { runningTask := some ⟨"build", false⟩, pathExecs := ["flake8"],
          notifications := [⟨.alreadyRunning, .warning⟩] }
    ∧ (startTask
        { runningTask := some ⟨"build", false⟩, pathExecs := ["flake8"] }
        ⟨"lint", "flake8", "", none, []⟩).runningTask = some ⟨"build", false⟩ := by
  have h := c2_single_flight
    { runningTask := some ⟨"build", false⟩, pathExecs := ["flake8"] }
    ⟨"lint", "flake8", "", none, []⟩ (by decide)
  exact ⟨h.1, by rw [h.2.1]⟩

/-- C6: the token walk of `_extract_primary_command` skips exactly the tokens
that look like leading environment assignments (containing `=`, not starting
with a quote character, non-empty key) and returns the first other token; a
token that still starts with a quote character is never skipped, and if every
token is such an assignment (or there are none) no candidate is reported. -/
theorem c6_token_walk :
    (∀ tokens, walkTokens tokens
      = tokens.find? (fun t => !isEnvAssignment t))
    ∧ (∀ t rest, startsWithQuote t = true → walkTokens (t :: rest) = some t)
    ∧ (∀ tokens, (∀ t ∈ tokens, isEnvAssignment t = true) →
        walkTokens tokens = none) := by
  have hfind : ∀ tokens, walkTokens tokens
      = tokens.find? (fun t => !isEnvAssignment t) := by
    intro tokens
    induction tokens with
    | nil => rfl
    | cons t rest ih =>
      by_cases h : isEnvAssignment t = true
      · simp [walkTokens, h, List.find?_cons, ih]
      · simp only [Bool.not_eq_true] at h
        simp [walkTokens, h, List.find?_cons]
  refine ⟨hfind, ?_, ?_⟩
  · intro t rest h
    have : isEnvAssignment t = false := by
      simp [isEnvAssignment, h]
    simp [walkTokens, this]
  · intro tokens h
    rw [hfind]
    rw [List.find?_eq_none]
    intro t ht
    simp [h t ht]

theorem c6_witness :
    walkTokens [['\'', 'F', 'O', 'O', '=', '1', '\''], ['c', 'm', 'd']]
      = some ['\'', 'F', 'O', 'O', '=', '1', '\''] :=
  c6_token_walk.2.1 ['\'', 'F', 'O', 'O', '=', '1', '\''] [['c', 'm', 'd']]
    (by decide)

/-! Helper lemmas for the message-level invariant (claim C10). -/

lemma levelOk_normLevel (source : String) (text : MsgText) (level : String) :
    LevelOk ⟨source, normLevel level, text⟩ := by
  unfold LevelOk normLevel
  by_cases h : pyLower level = "info" ∨ pyLower level = "warning"
      ∨ pyLower level = "error" <;> simp [h]

lemma messagesOk_addMessage {st : ManagerState} (h : MessagesOk st)
    (source : String) (text : MsgText) (level : String) :
    MessagesOk (addMessage st source text level) := by
  intro m hm
  simp only [addMessage, List.mem_append, List.mem_singleton] at hm
  rcases hm with hm | rfl
  · exact h m hm
  · exact levelOk_normLevel source text level

lemma messagesOk_applyCall {st : ManagerState} (h : MessagesOk st)
    (source : String) (c : APICall) : MessagesOk (applyCall st source c) := by
  cases c with
  | addTask m => exact fun x hx => h x hx
  | provideTasks p => exact fun x hx => h x hx
  | onAppReady hk => exact fun x hx => h x hx
  | log text level => exact messagesOk_addMessage h source (.custom text) level

lemma messagesOk_applyCalls {st : ManagerState} (h : MessagesOk st)
    (source : String) (calls : List APICall) :
    MessagesOk (applyCalls st source calls) := by
  induction calls generalizing st with
  | nil => exact h
  | cons c rest ih => exact ih (messagesOk_applyCall h source c)

lemma messagesOk_activatePlugin {st : ManagerState} (h : MessagesOk st)
    (obj : PluginObj) (source : String) :
    MessagesOk (activatePlugin st obj source) := by
  cases obj with
  | noEntryPoint => exact messagesOk_addMessage h source .noCallableEntryPoint "warning"
  | withRegister b =>
    show MessagesOk (if b.raises then _ else _)
    by_cases hb : b.raises <;>
      simp only [hb, if_true, if_false, Bool.false_eq_true] <;>
      exact messagesOk_addMessage
        (fun m hm => messagesOk_applyCalls h source b.calls m hm) source _ _
  | selfCallable b =>
    show MessagesOk (if b.raises then _ else _)
    by_cases hb : b.raises <;>
      simp only [hb, if_true, if_false, Bool.false_eq_true] <;>
      exact messagesOk_addMessage
        (fun m hm => messagesOk_applyCalls h source b.calls m hm) source _ _

lemma messagesOk_discover {st : ManagerState} (h : MessagesOk st)
    (entries : List (String × LoadResult)) : MessagesOk (discover st entries) := by
  induction entries generalizing st with
  | nil => exact h
  | cons e rest ih =>
    obtain ⟨name, r⟩ := e
    cases r with
    | loadFails => exact ih (messagesOk_addMessage h name .failedImport "error")
    | loaded obj => exact ih (messagesOk_activatePlugin h obj name)

lemma messagesOk_collectItems {st : ManagerState} (h : MessagesOk st)
    (source : String) (items : List PyItem) (acc : List TaskMapping) :
    MessagesOk (collectItems st source items acc).2 := by
  induction items generalizing st acc with
  | nil => exact h
  | cons it rest ih =>
    cases it with
    | mapping m => exact ih h _
    | notMapping =>
      exact ih (messagesOk_addMessage h source .providerNonMappingItem "error") _

lemma messagesOk_collectTasksAux {st : ManagerState} (h : MessagesOk st)
    (ws : String) (ps : List (String × Provider)) (acc : List TaskMapping) :
    MessagesOk (collectTasksAux st ws ps acc).2 := by
  induction ps generalizing st acc with
  | nil => exact h
  | cons p rest ih =>
    obtain ⟨source, provider⟩ := p
    simp only [collectTasksAux]
    cases provider ws with
    | raises => exact ih (messagesOk_addMessage h source .providerRaised "error") _
    | retNone => exact ih h _
    | retNotIterable => exact h
    | iter items => exact ih (messagesOk_collectItems h source items acc) _

lemma messagesOk_dispatchLoop {st : ManagerState} (h : MessagesOk st)
    (hooks : List (String × HookBehavior)) :
    MessagesOk (hooks.foldl
      (fun s sh => match sh.2 with
        | .ok => s
        | .raises => addMessage s sh.1 .appHookRaised "error") st) := by
  induction hooks generalizing st with
  | nil => exact h
  | cons sh rest ih =>
    cases hb : sh.2 with
    | ok => simpa [List.foldl, hb] using ih h
    | raises =>
      simpa [List.foldl, hb] using
        ih (messagesOk_addMessage h sh.1 .appHookRaised "error")

/-- C10: every message the manager records has a level in
`{info, warning, error}`: `_add_message` lowercases the requested level and
silently replaces anything outside the three allowed levels by `"info"`
(rather than rejecting it or storing it verbatim), and the resulting
invariant on the queue is preserved by every recording operation of the
manager. -/
theorem c10_level_invariant :
    (∀ st source text level, (addMessage st source text level).messages
      = st.messages ++ [⟨source, normLevel level, text⟩])
    ∧ (∀ level, pyLower level = "info" ∨ pyLower level = "warning"
        ∨ pyLower level = "error" → normLevel level = pyLower level)
    ∧ (∀ level, ¬(pyLower level = "info" ∨ pyLower level = "warning"
        ∨ pyLower level = "error") → normLevel level = "info")
    ∧ (∀ source text level, LevelOk ⟨source, normLevel level, text⟩)
    ∧ (∀ st source text level, MessagesOk st →
        MessagesOk (addMessage st source text level))
    ∧ (∀ st ws, MessagesOk st → MessagesOk (collectTasks st ws).2)
    ∧ (∀ st, MessagesOk st → MessagesOk (dispatchAppReady st).1)
    ∧ (∀ st obj source, MessagesOk st →
        MessagesOk (activatePlugin st obj source))
    ∧ (∀ st entries, MessagesOk st → MessagesOk (discover st entries))
    ∧ (∀ st, MessagesOk st → MessagesOk (consumeMessages st).2) := by
  refine ⟨fun st source text level => rfl,
    fun level h => by simp [normLevel, h],
    fun level h => by simp [normLevel, h],
    levelOk_normLevel,
    fun st source text level h => messagesOk_addMessage h source text level,
    fun st ws h => messagesOk_collectTasksAux h ws st.taskProviders _,
    fun st h => ?_,
    fun st obj source h => messagesOk_activatePlugin h obj source,
    fun st entries h => messagesOk_discover h entries,
    fun st h => by intro m hm; exact absurd hm (by simp [consumeMessages])⟩
  unfold dispatchAppReady
  cases hd : st.appHooksDispatched
  · simp only [hd, Bool.false_eq_true, if_false]
    exact @messagesOk_dispatchLoop { st with appHooksDispatched := true }
      (fun m hm => h m hm) st.appHooks
  · simp only [hd, if_true]
    exact h

theorem c10_witness :
    MessagesOk (addMessage { } "plug" (.custom "hello") "LOUD")
    ∧ (addMessage { } "plug" (.custom "hello") "LOUD").messages
      = [⟨"plug", "info", .custom "hello"⟩] := by
  refine ⟨c10_level_invariant.2.2.2.2.1 { } "plug" (.custom "hello") "LOUD"
    (by intro m hm; exact absurd hm (by simp)), ?_⟩
  have h := c10_level_invariant.1 { } "plug" (.custom "hello") "LOUD"
  rw [h]
  have : normLevel "LOUD" = "info" :=
    c10_level_invariant.2.2.1 "LOUD" (by decide)
  rw [this]
  rfl

/-- The messages `dispatch_app_ready` records while running a hook list:
one error per raising hook, in hook order. -/
def hookErrors (hooks : List (String × HookBehavior)) : List PluginMessage :=
  hooks.filterMap fun sh =>
    match sh.2 with
    | .raises => some ⟨sh.1, "error", .appHookRaised⟩
    | .ok => none

lemma normLevel_error : normLevel "error" = "error" := by decide

lemma normLevel_info : normLevel "info" = "info" := by decide

lemma normLevel_warning : normLevel "warning" = "warning" := by decide

lemma dispatchLoop_eq (hooks : List (String × HookBehavior)) :
    ∀ st : ManagerState,
      hooks.foldl
        (fun s sh => match sh.2 with
          | .ok => s
          | .raises => addMessage s sh.1 .appHookRaised "error") st
      = { st with messages := st.messages ++ hookErrors hooks } := by
  induction hooks with
  | nil => intro st; simp [hookErrors]
  | cons sh rest ih =>
    intro st
    obtain ⟨src, beh⟩ := sh
    cases beh with
    | ok =>
      simp only [List.foldl_cons]
      rw [ih]
      simp [hookErrors, List.filterMap_cons]
    | raises =>
      simp only [List.foldl_cons]
      rw [ih]
      simp [hookErrors, List.filterMap_cons, addMessage, normLevel_error,
        List.append_assoc]

/-- C8: `dispatch_app_ready` is idempotent.  On a not-yet-dispatched state it
invokes every registered hook exactly once in registration order (the
returned trace is the full hook list), records one error message per raising
hook without stopping the loop, and sets the dispatched flag; on a dispatched
state it is a no-op that invokes no hook — in particular a second call right
after a first one changes nothing and invokes nothing. -/
theorem c8_dispatch_ready_idempotent :
    (∀ st : ManagerState, st.appHooksDispatched = false →
      dispatchAppReady st
        = ({ st with
             appHooksDispatched := true
             messages := st.messages ++ hookErrors st.appHooks },
           st.appHooks))
    ∧ (∀ st : ManagerState, st.appHooksDispatched = true →
        dispatchAppReady st = (st, []))
    ∧ (∀ st : ManagerState,
        dispatchAppReady (dispatchAppReady st).1
          = ((dispatchAppReady st).1, [])) := by
  have h1 : ∀ st : ManagerState, st.appHooksDispatched = false →
      dispatchAppReady st
        = ({ st with
             appHooksDispatched := true
             messages := st.messages ++ hookErrors st.appHooks },
           st.appHooks) := by
    intro st hd
    unfold dispatchAppReady
    rw [if_neg (by simp [hd])]
    dsimp only
    rw [dispatchLoop_eq]
  have h2 : ∀ st : ManagerState, st.appHooksDispatched = true →
      dispatchAppReady st = (st, []) := by
    intro st hd
    unfold dispatchAppReady
    rw [if_pos hd]
  refine ⟨h1, h2, fun st => ?_⟩
  by_cases hd : st.appHooksDispatched
  · rw [h2 st hd, h2 st hd]
  · rw [h1 st (by simpa using hd)]
    exact h2 _ rfl

theorem c8_witness :
    dispatchAppReady { appHooks := [("a", .raises), ("b", .ok)] }
      = ({ appHooks := [("a", .raises), ("b", .ok)]
           appHooksDispatched := true
           messages := [⟨"a", "error", .appHookRaised⟩] },
         [("a", .raises), ("b", .ok)])
    ∧ dispatchAppReady
        { appHooks := [("a", .raises), ("b", .ok)]
          appHooksDispatched := true
          messages := [⟨"a", "error", .appHookRaised⟩] }
      = ({ appHooks := [("a", .raises), ("b", .ok)]
           appHooksDispatched := true
           messages := [⟨"a", "error", .appHookRaised⟩] }, []) :=
  ⟨c8_dispatch_ready_idempotent.1 _ rfl, c8_dispatch_ready_idempotent.2.1 _ rfl⟩

/-! Characterisation of a registration callable's effect (claim C7). -/

/-- The messages a list of API calls queues (one per `log` call, in order). -/
def callMessages (source : String) (calls : List APICall) : List PluginMessage :=
  calls.filterMap fun c =>
    match c with
    | .log text level => some ⟨source, normLevel level, .custom text⟩
    | _ => none

/-- The static-task contributions of a list of API calls. -/
def callTasks (source : String) (calls : List APICall) :
    List (String × TaskMapping) :=
  calls.filterMap fun c =>
    match c with
    | .addTask m => some (source, m)
    | _ => none

/-- The provider registrations of a list of API calls. -/
def callProviders (source : String) (calls : List APICall) :
    List (String × Provider) :=
  calls.filterMap fun c =>
    match c with
    | .provideTasks p => some (source, p)
    | _ => none

/-- The ready-hook registrations of a list of API calls. -/
def callHooks (source : String) (calls : List APICall) :
    List (String × HookBehavior) :=
  calls.filterMap fun c =>
    match c with
    | .onAppReady h => some (source, h)
    | _ => none

lemma applyCalls_eq (source : String) (calls : List APICall) :
    ∀ st : ManagerState, applyCalls st source calls
      = { st with
          messages := st.messages ++ callMessages source calls
          staticTasks := st.staticTasks ++ callTasks source calls
          taskProviders := st.taskProviders ++ callProviders source calls
          appHooks := st.appHooks ++ callHooks source calls } := by
  induction calls with
  | nil =>
    intro st
    simp [applyCalls, callMessages, callTasks, callProviders, callHooks]
  | cons c rest ih =>
    intro st
    show applyCalls (applyCall st source c) source rest = _
    rw [ih]
    cases c <;>
      simp [applyCall, registerTask, registerTaskProvider, registerAppHook,
        addMessage, callMessages, callTasks, callProviders, callHooks,
        List.filterMap_cons, List.append_assoc]

/-- C7: a plugin whose registration callable raises is excluded from
`loaded_plugins`, while exactly one error-level message for the failure
(tagged with its source) is appended after whatever messages the plugin's own
`log` calls queued, every task/provider/hook contribution made before raising
is retained (no rollback), and discovery continues with the remaining
entries; a registration callable that returns normally gets its source
appended to `loaded_plugins` together with one info message. -/
theorem c7_registration_failure_bounded :
    (∀ (st : ManagerState) (b : RegisterBehavior) (source : String),
      b.raises = true →
      activatePlugin st (.withRegister b) source
        = { st with
            messages := st.messages ++ callMessages source b.calls
              ++ [⟨source, "error", .registrationRaised⟩]
            staticTasks := st.staticTasks ++ callTasks source b.calls
            taskProviders := st.taskProviders ++ callProviders source b.calls
            appHooks := st.appHooks ++ callHooks source b.calls })
    ∧ (∀ (st : ManagerState) (b : RegisterBehavior) (source : String),
      b.raises = false →
      activatePlugin st (.withRegister b) source
        = { st with
            loadedPlugins := st.loadedPlugins ++ [source]
            messages := st.messages ++ callMessages source b.calls
              ++ [⟨source, "info", .registeredPlugin⟩]
            staticTasks := st.staticTasks ++ callTasks source b.calls
            taskProviders := st.taskProviders ++ callProviders source b.calls
            appHooks := st.appHooks ++ callHooks source b.calls })
    ∧ (∀ (st : ManagerState) (name : String) (obj : PluginObj)
        (rest : List (String × LoadResult)),
        discover st ((name, .loaded obj) :: rest)
          = discover (activatePlugin st obj name) rest) := by
  refine ⟨fun st b source hb => ?_, fun st b source hb => ?_,
    fun st name obj rest => rfl⟩
  · show (if b.raises then _ else _) = _
    rw [if_pos hb, applyCalls_eq]
    simp [addMessage, normLevel_error, List.append_assoc]
  · show (if b.raises then _ else _) = _
    rw [if_neg (by simp [hb]), applyCalls_eq]
    simp [addMessage, normLevel_info, List.append_assoc]

theorem c7_witness :
    activatePlugin { }
        (.withRegister ⟨[.addTask [("name", "x"), ("command", "y")]], true⟩)
        "evil"
      = { messages := [⟨"evil", "error", .registrationRaised⟩]
          staticTasks := [("evil", [("name", "x"), ("command", "y")])] }
    ∧ activatePlugin { } (.withRegister ⟨[], false⟩) "good"
      = { loadedPlugins := ["good"]
          messages := [⟨"good", "info", .registeredPlugin⟩] } := by
  constructor
  · have h := c7_registration_failure_bounded.1 { }
      ⟨[.addTask [("name", "x"), ("command", "y")]], true⟩ "evil" rfl
    simpa using h
  · have h := c7_registration_failure_bounded.2.1 { } ⟨[], false⟩ "good" rfl
    simpa using h

/-! Characterisation of `collect_tasks` (claim C1). -/

/-- The task mapping a yielded element contributes, if it is a mapping. -/
def itemTask : PyItem → Option TaskMapping
  | .mapping m => some m
  | .notMapping => none

/-- The error message a yielded element produces, if it is not a mapping. -/
def itemMsg (source : String) : PyItem → Option PluginMessage
  | .notMapping => some ⟨source, "error", .providerNonMappingItem⟩
  | .mapping _ => none

/-- The task mappings one provider contributes to `collect_tasks`. -/
def providerTasks (ws : String) (sp : String × Provider) : List TaskMapping :=
  match sp.2 ws with
  | .iter items => items.filterMap itemTask
  | _ => []

/-- The error messages one provider's invocation records. -/
def providerMsgs (ws : String) (sp : String × Provider) : List PluginMessage :=
  match sp.2 ws with
  | .raises => [⟨sp.1, "error", .providerRaised⟩]
  | .iter items => items.filterMap (itemMsg sp.1)
  | _ => []

/-- No provider in the list returns a non-`None`, non-iterable value on this
workspace (the one case `collect_tasks` does not catch). -/
def NoBadReturn (ws : String) (ps : List (String × Provider)) : Prop :=
  ∀ p ∈ ps, p.2 ws ≠ ProviderResult.retNotIterable

lemma collectItems_eq (source : String) (items : List PyItem) :
    ∀ (st : ManagerState) (acc : List TaskMapping),
      collectItems st source items acc
        = (acc ++ items.filterMap itemTask,
           { st with messages := st.messages ++ items.filterMap (itemMsg source) }) := by
  induction items with
  | nil => intro st acc; simp [collectItems]
  | cons it rest ih =>
    intro st acc
    cases it with
    | mapping m =>
      show collectItems st source rest (acc ++ [m]) = _
      rw [ih]
      simp [itemTask, itemMsg, List.filterMap_cons, List.append_assoc]
    | notMapping =>
      show collectItems (addMessage st source .providerNonMappingItem "error")
          source rest acc = _
      rw [ih]
      simp [itemTask, itemMsg, List.filterMap_cons, addMessage,
        normLevel_error, List.append_assoc]

lemma collectTasksAux_eq (ws : String) (ps : List (String × Provider))
    (h : NoBadReturn ws ps) :
    ∀ (st : ManagerState) (acc : List TaskMapping),
      collectTasksAux st ws ps acc
        = (some (acc ++ (ps.map (providerTasks ws)).flatten),
           { st with messages := st.messages ++ (ps.map (providerMsgs ws)).flatten }) := by
  induction ps with
  | nil => intro st acc; simp [collectTasksAux]
  | cons p rest ih =>
    intro st acc
    obtain ⟨source, provider⟩ := p
    have hrest : NoBadReturn ws rest := fun q hq => h q (List.mem_cons_of_mem _ hq)
    have hp : provider ws ≠ ProviderResult.retNotIterable :=
      h (source, provider) (List.mem_cons_self _ _)
    simp only [collectTasksAux]
    cases hpr : provider ws with
    | raises =>
      dsimp only
      rw [ih hrest]
      simp [providerTasks, providerMsgs, hpr, addMessage, normLevel_error,
        List.append_assoc]
    | retNone =>
      dsimp only
      rw [ih hrest]
      simp [providerTasks, providerMsgs, hpr]
    | retNotIterable => exact absurd hpr hp
    | iter items =>
      dsimp only
      rw [collectItems_eq]
      dsimp only
      rw [ih hrest]
      simp [providerTasks, providerMsgs, hpr, List.append_assoc]

/-- C1 (amended): provided no provider returns a non-`None` non-iterable
value, `collect_tasks` never propagates an exception and returns the static
tasks followed by each provider's mapping elements in order; a provider that
raises contributes nothing and records exactly one error message naming its
source, later providers still run, and a non-mapping element is skipped with
one error message per such element while mapping elements of the same
provider are retained.  (As stated, the original claim fails: see the
counterexample.) -/
theorem c1_provider_failures_bounded (st : ManagerState) (ws : String)
    (h : NoBadReturn ws st.taskProviders) :
    collectTasks st ws
      = (some (st.staticTasks.map Prod.snd
          ++ (st.taskProviders.map (providerTasks ws)).flatten),
         { st with messages := st.messages
            ++ (st.taskProviders.map (providerMsgs ws)).flatten }) :=
  collectTasksAux_eq ws st.taskProviders h st _

/-- The `{name: "lint", command: "flake8"}` mapping of the claim's example. -/
def lintMapping : TaskMapping := [("name", "lint"), ("command", "flake8")]

/-- A provider yielding a non-mapping element followed by a valid mapping. -/
def partialProvider : Provider := fun _ => .iter [.notMapping, .mapping lintMapping]

/-- A provider returning a non-`None` value that is not iterable. -/
def nonIterableProvider : Provider := fun _ => .retNotIterable

/-- A provider that raises. -/
def raisingProvider : Provider := fun _ => .raises

/-- A provider returning exactly the claim's `[{name: "lint", command:
"flake8"}]`. -/
def goodProvider : Provider := fun _ => .iter [.mapping lintMapping]

/-- C1 counterexample: with a provider that yields a non-mapping element
followed by the lint mapping, `collect_tasks` keeps the lint mapping (the
claim demands the provider's entire output be omitted), and with a provider
returning a non-iterable value the `TypeError` escapes `collect_tasks` (the
claim demands no exception escape and one recorded error instead). -/
theorem c1_counterexample :
    (collectTasks { taskProviders := [("plug", partialProvider)] } "ws").1
      = some [lintMapping]
    ∧ (collectTasks { taskProviders := [("plug2", nonIterableProvider)] } "ws").1
      = none
    ∧ (collectTasks { taskProviders := [("plug2", nonIterableProvider)] } "ws").2.messages
      = [] := ⟨rfl, rfl, rfl⟩

theorem c1_witness :
    collectTasks
        { staticTasks := [("host", [("name", "build"), ("command", "make")])]
          taskProviders := [("first", raisingProvider), ("second", goodProvider)] }
        "ws"
      = (some [[("name", "build"), ("command", "make")], lintMapping],
         { staticTasks := [("host", [("name", "build"), ("command", "make")])]
           taskProviders := [("first", raisingProvider), ("second", goodProvider)]
           messages := [⟨"first", "error", .providerRaised⟩] }) := by
  have h := c1_provider_failures_bounded
    { staticTasks := [("host", [("name", "build"), ("command", "make")])]
      taskProviders := [("first", raisingProvider), ("second", goodProvider)] }
    "ws" (by intro p hp; fin_cases hp <;> simp [raisingProvider, goodProvider])
  simpa [raisingProvider, goodProvider, providerTasks, providerMsgs,
    lintMapping, itemTask] using h

/-! The `coerce_tasks` claim (C4). -/

lemma envMappingOf_of_not_truthy {item : RawTask}
    (h : envTruthyNonMapping item = false) :
    envMappingOf item.env = .pymap (mkSpec item).env := by
  obtain ⟨n, c, d, w, e⟩ := item
  unfold envTruthyNonMapping at h
  unfold mkSpec envMappingOf
  dsimp only at h ⊢
  rcases e with _ | e
  · rfl
  · cases e with
    | pymap entries => rfl
    | nonMapping t =>
      cases t
      · rfl
      · exact absurd h (by simp)

lemma envMappingOf_of_truthy {item : RawTask}
    (h : envTruthyNonMapping item = true) :
    envMappingOf item.env = .nonMapping true := by
  obtain ⟨n, c, d, w, e⟩ := item
  unfold envTruthyNonMapping at h
  unfold envMappingOf
  dsimp only at h ⊢
  rcases e with _ | e
  · exact absurd h (by simp)
  · cases e with
    | pymap entries => exact absurd h (by simp)
    | nonMapping t =>
      cases t
      · exact absurd h (by simp)
      · rfl

lemma coerceTasksAux_ok (items : List RawTask) :
    ∀ seen : List String,
      (∀ item ∈ items, GoodItem item) →
      (items.map rawName).Nodup →
      (∀ item ∈ items, rawName item ∉ seen) →
      coerceTasksAux items seen = .ok (items.map mkSpec) := by
  induction items with
  | nil => intro seen _ _ _; rfl
  | cons item rest ih =>
    intro seen hgood hnodup hseen
    obtain ⟨hn, hc, henv⟩ := hgood item (List.mem_cons_self item rest)
    have henvmap := envMappingOf_of_not_truthy henv
    have hnotmem : rawName item ∉ rest.map rawName :=
      (List.nodup_cons.1 (by simpa using hnodup)).1
    have hrest : coerceTasksAux rest (rawName item :: seen)
        = .ok (rest.map mkSpec) := by
      refine ih _ (fun it hit => hgood it (List.mem_cons_of_mem _ hit))
        ((List.nodup_cons.1 (by simpa using hnodup)).2) ?_
      intro it hit hmem
      rcases List.mem_cons.1 hmem with hEq | hmem2
      · exact hnotmem (hEq ▸ List.mem_map_of_mem rawName hit)
      · exact hseen it (List.mem_cons_of_mem _ hit) hmem2
    have hcon : ¬ (seen.contains (rawName item) = true) := by
      simpa using hseen item (List.mem_cons_self item rest)
    simp only [coerceTasksAux]
    rw [if_neg hn, if_neg hc, if_neg hcon, henvmap, hrest]
    rfl

lemma coerceTasksAux_error (items : List RawTask) :
    ∀ seen : List String,
      ((∃ item ∈ items, ¬ GoodItem item) ∨ ¬ (items.map rawName).Nodup
        ∨ (∃ item ∈ items, rawName item ∈ seen)) →
      ∃ e, coerceTasksAux items seen = .error e := by
  induction items with
  | nil =>
    intro seen h
    rcases h with ⟨item, hm, _⟩ | h | ⟨item, hm, _⟩
    · exact absurd hm (List.not_mem_nil item)
    · exact absurd (by simp) h
    · exact absurd hm (List.not_mem_nil item)
  | cons item rest ih =>
    intro seen h
    by_cases hn : rawName item = ""
    · exact ⟨.missingName, by simp [coerceTasksAux, hn]⟩
    by_cases hc : rawCommand item = ""
    · exact ⟨.missingCommand (rawName item), by simp [coerceTasksAux, hn, hc]⟩
    by_cases hs : rawName item ∈ seen
    · exact ⟨.duplicateName (rawName item),
        by simp [coerceTasksAux, hn, hc, hs]⟩
    by_cases he : envTruthyNonMapping item = true
    · refine ⟨.envNotMapping (rawName item), ?_⟩
      simp [coerceTasksAux, hn, hc, hs, envMappingOf_of_truthy he]
    · have hgood : GoodItem item := ⟨hn, hc, by simpa using he⟩
      have htail : (∃ it ∈ rest, ¬ GoodItem it) ∨ ¬ (rest.map rawName).Nodup
          ∨ (∃ it ∈ rest, rawName it ∈ rawName item :: seen) := by
        rcases h with ⟨it, hm, hbad⟩ | hnd | ⟨it, hm, hcon⟩
        · rcases List.mem_cons.1 hm with rfl | hm
          · exact absurd hgood hbad
          · exact Or.inl ⟨it, hm, hbad⟩
        · rw [List.map_cons, List.nodup_cons] at hnd
          push_neg at hnd
          by_cases hmem : rawName item ∈ rest.map rawName
          · obtain ⟨it, hit, hEq⟩ := List.mem_map.1 hmem
            exact Or.inr (Or.inr ⟨it, hit, by simp [hEq]⟩)
          · exact Or.inr (Or.inl (hnd hmem))
        · rcases List.mem_cons.1 hm with rfl | hm
          · exact absurd hcon hs
          · exact Or.inr (Or.inr ⟨it, hm, List.mem_cons_of_mem _ hcon⟩)
      obtain ⟨e, hrec⟩ := ih (rawName item :: seen) htail
      refine ⟨e, ?_⟩
      have henvmap := envMappingOf_of_not_truthy (by simpa using he)
      simp [coerceTasksAux, hn, hc, hs, henvmap, hrec]

/-- C4 (amended): `coerce_tasks` fails closed, with one qualification the
code forces on the claim: a mapping is rejected — producing no tasks — when
it is missing a non-empty (stripped) name or command, repeats a name already
seen, or supplies a *truthy* `env` value that is not a mapping; a falsy
non-mapping `env` (such as `""`, `0` or `[]`) is replaced by `{}` by
`item.get("env") or {}` and accepted.  When every mapping is valid and names
are pairwise distinct, it returns one validated `TaskSpec` per input mapping,
in order, with all names unique. -/
theorem c4_fail_closed (items : List RawTask) :
    ((∀ item ∈ items, GoodItem item) ∧ (items.map rawName).Nodup →
      coerceTasks items = .ok (items.map mkSpec)
        ∧ ((items.map mkSpec).map TaskSpec.name).Nodup
        ∧ (items.map mkSpec).length = items.length)
    ∧ ((∃ item ∈ items, ¬ GoodItem item) ∨ ¬ (items.map rawName).Nodup →
      ∃ e, coerceTasks items = .error e) := by
  constructor
  · rintro ⟨hgood, hnodup⟩
    refine ⟨coerceTasksAux_ok items [] hgood hnodup
      (fun item _ => List.not_mem_nil _), ?_, ?_⟩
    · have : (items.map mkSpec).map TaskSpec.name = items.map rawName := by
        rw [List.map_map]
        rfl
      rw [this]
      exact hnodup
    · simp
  · intro h
    exact coerceTasksAux_error items []
      (h.elim (fun x => Or.inl x) (fun x => Or.inr (Or.inl x)))

/-- C4 counterexample: a mapping whose `env` is a falsy non-mapping value
(e.g. `env=""`) is accepted by `coerce_tasks` with empty overrides, whereas
the claim demands a `TaskConfigurationError` for every non-mapping `env`. -/
theorem c4_counterexample :
    coerceTasks
        [{ name := some "pkg", command := some "make",
           env := some (.nonMapping false) }]
      = .ok [⟨"pkg", "make", "", none, []⟩] := by
  rfl

theorem c4_witness :
    coerceTasks [{ name := some " build ", command := some "make" },
                 { name := some "lint", command := some "flake8" }]
      = .ok [⟨"build", "make", "", none, []⟩, ⟨"lint", "flake8", "", none, []⟩]
    ∧ (∃ e, coerceTasks [{ name := some "a", command := some "b" },
                         { name := some "a", command := some "c" }]
        = .error e) := by
  constructor
  · have h := (c4_fail_closed
      [{ name := some " build ", command := some "make" },
       { name := some "lint", command := some "flake8" }]).1
      ⟨by decide, by decide⟩
    exact h.1
  · exact (c4_fail_closed
      [{ name := some "a", command := some "b" },
       { name := some "a", command := some "c" }]).2
      (Or.inr (by decide))

/-! The missing-executable pre-flight refusal (claim C3). -/

lemma autosaveStep_fields (st : AppState) :
    (autosaveStep st).logLines = st.logLines
    ∧ (autosaveStep st).spawned = st.spawned
    ∧ (autosaveStep st).runningTask = st.runningTask
    ∧ (autosaveStep st).pathExecs = st.pathExecs
    ∧ ((autosaveStep st).notifications = st.notifications
        ∨ (autosaveStep st).notifications
          = st.notifications ++ [⟨.autosaveFailed, .error⟩]) := by
  unfold autosaveStep
  split_ifs <;> simp

lemma detect_autosaveStep (st : AppState) (cmd : String) :
    detectMissingExecutable (autosaveStep st) cmd
      = detectMissingExecutable st cmd := by
  unfold detectMissingExecutable
  rw [(autosaveStep_fields st).2.2.2.1]

/-- C3: when the extracted leading executable of the task's command does not
resolve on the search path, `_start_task` spawns no process (the spawned list
and the running-task slot are unchanged, and the runner stays available for a
subsequent task), appends exactly one error-severity notification naming the
missing executable, and writes exactly one log line reporting it.  (The only
other notification the call can emit is the autosave-failure one, which never
names the executable.) -/
theorem c3_missing_executable (st : AppState) (task : TaskSpec) (exe : String)
    (hrun : taskInFlight st = false)
    (hdet : detectMissingExecutable st task.command = some exe) :
    startTask st task
      = { autosaveStep st with
          logLines := (autosaveStep st).logLines ++ [.commandNotAvailable exe]
          notifications := (autosaveStep st).notifications
            ++ [⟨.commandNotAvailable exe, .error⟩] }
    ∧ (startTask st task).spawned = st.spawned
    ∧ (startTask st task).runningTask = st.runningTask
    ∧ taskInFlight (startTask st task) = false
    ∧ (startTask st task).logLines = st.logLines ++ [.commandNotAvailable exe]
    ∧ (startTask st task).notifications.countP
        (fun n => n.text == NoteText.commandNotAvailable exe)
      = st.notifications.countP
          (fun n => n.text == NoteText.commandNotAvailable exe) + 1 := by
  have hdet1 : detectMissingExecutable (autosaveStep st) task.command
      = some exe := by
    rw [detect_autosaveStep]; exact hdet
  have hmain : startTask st task
      = { autosaveStep st with
          logLines := (autosaveStep st).logLines ++ [.commandNotAvailable exe]
          notifications := (autosaveStep st).notifications
            ++ [⟨.commandNotAvailable exe, .error⟩] } := by
    unfold startTask
    rw [if_neg (by simp [hrun])]
    dsimp only
    rw [hdet1]
  obtain ⟨hlog, hspawn, hrunning, hpath, hnote⟩ := autosaveStep_fields st
  refine ⟨hmain, ?_, ?_, ?_, ?_, ?_⟩
  · rw [hmain]; exact hspawn
  · rw [hmain]; exact hrunning
  · rw [hmain]
    show (match (autosaveStep st).runningTask with
      | some h => !h.done
      | none => false) = false
    rw [hrunning]
    exact hrun
  · rw [hmain]
    show (autosaveStep st).logLines ++ [.commandNotAvailable exe]
      = st.logLines ++ [.commandNotAvailable exe]
    rw [hlog]
  · rw [hmain]
    show ((autosaveStep st).notifications
        ++ [(⟨.commandNotAvailable exe, .error⟩ : Notification)]).countP
        (fun n => n.text == NoteText.commandNotAvailable exe) = _
    rcases hnote with hnote | hnote <;> rw [hnote] <;>
      simp [List.countP_append, List.countP_cons]

theorem c3_witness :
    startTask { pathExecs := ["sh", "ls", "flake8"] }
        ⟨"pkg", "nonexistent-tool-xyz --flag", "", none, []⟩
      = { pathExecs := ["sh", "ls", "flake8"]
          logLines := [.commandNotAvailable "nonexistent-tool-xyz"]
          notifications := [⟨.commandNotAvailable "nonexistent-tool-xyz", .error⟩] }
    ∧ (startTask { pathExecs := ["sh", "ls", "flake8"] }
        ⟨"pkg", "nonexistent-tool-xyz --flag", "", none, []⟩).spawned = [] := by
  have h := c3_missing_executable { pathExecs := ["sh", "ls", "flake8"] }
    ⟨"pkg", "nonexistent-tool-xyz --flag", "", none, []⟩ "nonexistent-tool-xyz"
    (by decide) (by decide)
  refine ⟨?_, ?_⟩
  · have h1 := h.1
    simpa [autosaveStep] using h1
  · exact h.2.1

/-! Infrastructure for the trailing-segment claim (C5): how the sequential
separator-splitting loop of `_extract_primary_command` behaves on a command
of the shape `first-segment ++ operator ++ rest`. -/

/-- The characters any shell control operator of `separators` is built of. -/
def sepChars : List Char := ['&', '|', ';', '\n']

/-- A first segment containing no shell-control character at all. -/
def CleanSeg (s : List Char) : Prop := ∀ c ∈ s, c ∉ sepChars

instance (s : List Char) : Decidable (CleanSeg s) := by
  unfold CleanSeg; infer_instance

lemma startsWithSeq_self_append (pat r : List Char) :
    startsWithSeq (pat ++ r) pat = true := by
  induction pat with
  | nil => cases r <;> rfl
  | cons c p ih => simp [startsWithSeq, ih]

/-- Some occurrence of `pat` begins inside `a` (possibly running on into `r`). -/
def startsIn : List Char → List Char → List Char → Bool
  | [], _, _ => false
  | c :: a, r, pat => startsWithSeq (c :: (a ++ r)) pat || startsIn a r pat

lemma containsSeq_append (a r pat : List Char) :
    containsSeq (a ++ r) pat = (startsIn a r pat || containsSeq r pat) := by
  induction a with
  | nil => simp [startsIn]
  | cons c a ih => simp [containsSeq, startsIn, ih, Bool.or_assoc]

lemma splitFirst_append (a r pat : List Char) (h : startsIn a r pat = false) :
    splitFirst (a ++ r) pat = a ++ splitFirst r pat := by
  induction a with
  | nil => rfl
  | cons c a ih =>
    rw [startsIn, Bool.or_eq_false_iff] at h
    rw [List.cons_append, splitFirst, if_neg (by simp [h.1]), ih h.2,
      List.cons_append]

lemma startsIn_of_clean (a r : List Char) (p : Char) (ps : List Char)
    (ha : CleanSeg a) (hp : p ∈ sepChars) : startsIn a r (p :: ps) = false := by
  induction a with
  | nil => rfl
  | cons c a ih =>
    have hcp : ¬(c = p) := fun hEq =>
      ha c (List.mem_cons_self c a) (hEq ▸ hp)
    rw [startsIn, Bool.or_eq_false_iff]
    constructor
    · simp [startsWithSeq, hcp]
    · exact ih (fun x hx => ha x (List.mem_cons_of_mem _ hx))

lemma containsSeq_clean (s : List Char) (p : Char) (ps : List Char)
    (hs : CleanSeg s) (hp : p ∈ sepChars) : containsSeq s (p :: ps) = false := by
  induction s with
  | nil => rfl
  | cons c s ih =>
    have hcp : ¬(c = p) := fun hEq =>
      hs c (List.mem_cons_self c s) (hEq ▸ hp)
    rw [containsSeq, Bool.or_eq_false_iff]
    constructor
    · simp [startsWithSeq, hcp]
    · exact ih (fun x hx => hs x (List.mem_cons_of_mem _ hx))

lemma sepPass_clean (s pat : List Char) (hs : CleanSeg s)
    (hpat : pat ∈ separators) : sepPass s pat = s := by
  fin_cases hpat <;>
    exact if_neg (by rw [containsSeq_clean s _ _ hs (by decide)]; simp)

lemma foldl_sepPass_clean (pats : List (List Char)) (s : List Char)
    (h : ∀ pat ∈ pats, pat ∈ separators) (hs : CleanSeg s) :
    pats.foldl sepPass s = s := by
  induction pats with
  | nil => rfl
  | cons pat rest ih =>
    rw [List.foldl_cons, sepPass_clean s pat hs (h pat (List.mem_cons_self _ _))]
    exact ih (fun q hq => h q (List.mem_cons_of_mem _ hq))

lemma containsSeq_of_startsWith (l pat : List Char)
    (h : startsWithSeq l pat = true) (hl : l ≠ []) : containsSeq l pat = true := by
  cases l with
  | nil => exact absurd rfl hl
  | cons c t => simp [containsSeq, h]

lemma splitFirst_eq_nil (l pat : List Char) (h : startsWithSeq l pat = true) :
    splitFirst l pat = [] := by
  cases l with
  | nil => rfl
  | cons c t => rw [splitFirst, if_pos h]

lemma startsIn_sep (sep pat m : List Char) (hsep : sep ∈ separators)
    (hpat : pat ∈ separators) (h : startsWithSeq (sep ++ m) pat = false) :
    startsIn sep m pat = false := by
  fin_cases hsep <;> fin_cases hpat <;>
    simp_all [startsIn, startsWithSeq]

lemma sep_ne_nil (sep : List Char) (hsep : sep ∈ separators) : sep ≠ [] := by
  fin_cases hsep <;> simp

lemma sback_eq_nil_iff (l : List Char) :
    sback l = [] ↔ ∀ c ∈ l, isStripSpace c = true := by
  unfold sback
  rw [List.reverse_eq_nil_iff, List.dropWhile_eq_nil_iff]
  constructor
  · intro h c hc; exact h c (List.mem_reverse.2 hc)
  · intro h c hc; exact h c (List.mem_reverse.1 hc)

lemma sback_append_of_ne_nil (a b : List Char) (h : sback b ≠ []) :
    sback (a ++ b) = a ++ sback b := by
  have hb : (b.reverse.dropWhile isStripSpace).isEmpty = false := by
    rcases hcase : b.reverse.dropWhile isStripSpace with _ | ⟨x, xs⟩
    · exact absurd (by unfold sback; rw [hcase]; rfl) h
    · rfl
  unfold sback
  rw [List.reverse_append, List.dropWhile_append, hb]
  simp [List.reverse_append]

lemma sback_append_allws (a b : List Char)
    (h : ∀ c ∈ b, isStripSpace c = true) : sback (a ++ b) = sback a := by
  have hb : (b.reverse.dropWhile isStripSpace).isEmpty = true := by
    have hnil : b.reverse.dropWhile isStripSpace = [] :=
      List.dropWhile_eq_nil_iff.2 (fun x hx => h x (List.mem_reverse.1 hx))
    rw [hnil]; rfl
  unfold sback
  rw [List.reverse_append, List.dropWhile_append, hb]
  simp

lemma cleanSeg_sback {s : List Char} (h : CleanSeg s) : CleanSeg (sback s) := by
  intro c hc
  apply h c
  unfold sback at hc
  rw [List.mem_reverse] at hc
  exact List.mem_reverse.1 ((List.dropWhile_sublist _).subset hc)

lemma cleanSeg_dropWhile {s : List Char} (h : CleanSeg s) :
    CleanSeg (s.dropWhile isStripSpace) :=
  fun c hc => h c ((List.dropWhile_sublist _).subset hc)

lemma cleanSeg_stripChars {s : List Char} (h : CleanSeg s) :
    CleanSeg (stripChars s) :=
  cleanSeg_sback (cleanSeg_dropWhile h)

lemma dropWhile_head_false {p : Char → Bool} {l : List Char} {c : Char}
    {rest : List Char} (h : l.dropWhile p = c :: rest) : p c = false := by
  induction l with
  | nil => simp at h
  | cons a l ih =>
    rw [List.dropWhile_cons] at h
    by_cases hp : p a = true
    · rw [if_pos hp] at h; exact ih h
    · rw [if_neg hp] at h
      rw [List.cons.injEq] at h
      rw [← h.1]
      exact Bool.eq_false_iff.2 hp

lemma sback_sep_append (sep : List Char) (hsep : sep ∈ separators)
    (x : List Char) :
    sback (sep ++ x) = sep ++ sback x
    ∨ (sep = ['\n'] ∧ ∀ c ∈ sep ++ x, isStripSpace c = true) := by
  by_cases hx : sback x = []
  · have hxws : ∀ c ∈ x, isStripSpace c = true := (sback_eq_nil_iff x).1 hx
    by_cases hnl : sep = ['\n']
    · subst hnl
      refine Or.inr ⟨rfl, ?_⟩
      intro c hc
      rcases List.mem_append.1 hc with h | h
      · rw [List.mem_singleton.1 h]; rfl
      · exact hxws c h
    · left
      have hsb : sback sep = sep := by
        fin_cases hsep
        · decide
        · decide
        · decide
        · decide
        · exact absurd rfl hnl
      rw [sback_append_allws _ _ hxws, hsb, hx, List.append_nil]
  · exact Or.inl (sback_append_of_ne_nil sep x hx)

/-- One pass of the separator loop on a command of the shape
`segment ++ operator ++ rest` (segment clean of control characters and led by
a non-space character) either cuts it back to the stripped segment or keeps
the shape, and the pass for the operator itself always cuts. -/
lemma sepPass_dichotomy
    (c : Char) (s1 : List Char) (hc : isStripSpace c = false)
    (hclean : CleanSeg (c :: s1))
    (sep pat : List Char) (hsep : sep ∈ separators) (hpat : pat ∈ separators)
    (m : List Char) :
    sepPass ((c :: s1) ++ sep ++ m) pat = sback (c :: s1)
    ∨ (pat ≠ sep ∧ ∃ m', sepPass ((c :: s1) ++ sep ++ m) pat
        = (c :: s1) ++ sep ++ m') := by
  obtain ⟨p, ps, hpeq, hpmem⟩ : ∃ p ps, pat = p :: ps ∧ p ∈ sepChars := by
    fin_cases hpat
    · exact ⟨'&', ['&'], rfl, by decide⟩
    · exact ⟨'|', ['|'], rfl, by decide⟩
    · exact ⟨'|', [], rfl, by decide⟩
    · exact ⟨';', [], rfl, by decide⟩
    · exact ⟨'\n', [], rfl, by decide⟩
  by_cases hcont : containsSeq ((c :: s1) ++ sep ++ m) pat = true
  · have hsi : startsIn (c :: s1) (sep ++ m) pat = false := by
      rw [hpeq]
      exact startsIn_of_clean _ _ _ _ hclean hpmem
    by_cases hj : startsWithSeq (sep ++ m) pat = true
    · left
      unfold sepPass
      rw [if_pos hcont, List.append_assoc, splitFirst_append _ _ _ hsi,
        splitFirst_eq_nil _ _ hj, List.append_nil]
      unfold stripChars
      rw [List.dropWhile_cons, if_neg (by simp [hc])]
    · have hjf : startsWithSeq (sep ++ m) pat = false := by
        simpa using hj
      have hPneS : pat ≠ sep := by
        rintro rfl
        rw [startsWithSeq_self_append] at hjf
        simp at hjf
      have hsiS : startsIn sep m pat = false :=
        startsIn_sep _ _ _ hsep hpat hjf
      rcases sback_sep_append sep hsep (splitFirst m pat) with hS | ⟨_, hallws⟩
      · right
        refine ⟨hPneS, sback (splitFirst m pat), ?_⟩
        unfold sepPass
        rw [if_pos hcont, List.append_assoc, splitFirst_append _ _ _ hsi,
          splitFirst_append _ _ _ hsiS]
        unfold stripChars
        rw [show (c :: s1) ++ (sep ++ splitFirst m pat)
            = c :: (s1 ++ (sep ++ splitFirst m pat)) from rfl,
          List.dropWhile_cons, if_neg (by simp [hc]),
          show c :: (s1 ++ (sep ++ splitFirst m pat))
            = (c :: s1) ++ (sep ++ splitFirst m pat) from rfl,
          sback_append_of_ne_nil _ _ (by
            rw [hS]
            intro hEq
            exact sep_ne_nil sep hsep (List.append_eq_nil.1 hEq).1),
          hS, ← List.append_assoc]
      · left
        unfold sepPass
        rw [if_pos hcont, List.append_assoc, splitFirst_append _ _ _ hsi,
          splitFirst_append _ _ _ hsiS]
        unfold stripChars
        rw [show (c :: s1) ++ (sep ++ splitFirst m pat)
            = c :: (s1 ++ (sep ++ splitFirst m pat)) from rfl,
          List.dropWhile_cons, if_neg (by simp [hc]),
          show c :: (s1 ++ (sep ++ splitFirst m pat))
            = (c :: s1) ++ (sep ++ splitFirst m pat) from rfl,
          sback_append_allws _ _ hallws]
  · have hPneS : pat ≠ sep := by
      intro hEq
      apply hcont
      rw [hEq, List.append_assoc, containsSeq_append]
      have h1 : containsSeq (sep ++ m) sep = true :=
        containsSeq_of_startsWith _ _ (startsWithSeq_self_append sep m)
          (fun hEq => sep_ne_nil sep hsep (List.append_eq_nil.1 hEq).1)
      rw [h1]
      simp
    right
    refine ⟨hPneS, m, ?_⟩
    unfold sepPass
    rw [if_neg hcont]

/-- Running the separator loop on `segment ++ operator ++ rest` always ends
at the stripped segment: the operator's own pass cuts there, and every later
pass leaves the clean segment unchanged. -/
lemma foldl_sepPass_cut
    (c : Char) (s1 sep : List Char) (hc : isStripSpace c = false)
    (hclean : CleanSeg (c :: s1)) (hsep : sep ∈ separators) :
    ∀ pats : List (List Char), (∀ pat ∈ pats, pat ∈ separators) →
      sep ∈ pats → ∀ m,
      pats.foldl sepPass ((c :: s1) ++ sep ++ m) = sback (c :: s1) := by
  intro pats
  induction pats with
  | nil => intro _ h _; exact absurd h (List.not_mem_nil _)
  | cons pat rest ih =>
    intro hall hmem m
    rw [List.foldl_cons]
    rcases sepPass_dichotomy c s1 hc hclean sep pat hsep
        (hall pat (List.mem_cons_self _ _)) m with hcut | ⟨hne, m', heq⟩
    · rw [hcut]
      exact foldl_sepPass_clean rest _
        (fun q hq => hall q (List.mem_cons_of_mem _ hq)) (cleanSeg_sback hclean)
    · rw [heq]
      have hmem' : sep ∈ rest := by
        rcases List.mem_cons.1 hmem with hEq | h
        · exact absurd hEq.symm hne
        · exact h
      exact ih (fun q hq => hall q (List.mem_cons_of_mem _ hq)) hmem' m'

/-- C5: for every non-blank command string whose first segment contains no
shell control character (`&`, `|`, `;`, newline), appending a
sequencing/piping operator from the loop's set together with an arbitrary
trailing segment does not change the extracted leading executable — only the
first segment is inspected. -/
theorem c5_trailing_segments (s sep t : List Char)
    (hsep : sep ∈ separators) (hclean : CleanSeg s)
    (hne : stripChars s ≠ []) :
    extractPrimaryCommand (s ++ sep ++ t) = extractPrimaryCommand s := by
  obtain ⟨c, s1, hd⟩ : ∃ c s1, s.dropWhile isStripSpace = c :: s1 := by
    rcases hcase : s.dropWhile isStripSpace with _ | ⟨c, s1⟩
    · exact absurd (by unfold stripChars; rw [hcase]; rfl) hne
    · exact ⟨c, s1, rfl⟩
  have hc : isStripSpace c = false := dropWhile_head_false hd
  have hcleand : CleanSeg (c :: s1) := hd ▸ cleanSeg_dropWhile hclean
  have hs0 : stripChars s = sback (c :: s1) := by unfold stripChars; rw [hd]
  have hfold0 : separators.foldl sepPass (stripChars s) = stripChars s :=
    foldl_sepPass_clean _ _ (fun q hq => hq) (cleanSeg_stripChars hclean)
  have hfront : (s ++ (sep ++ t)).dropWhile isStripSpace
      = (c :: s1) ++ (sep ++ t) := by
    rw [List.dropWhile_append, hd]
    rfl
  rcases sback_sep_append sep hsep t with hS | ⟨_, hallws⟩
  · have hu : stripChars (s ++ sep ++ t) = (c :: s1) ++ sep ++ sback t := by
      unfold stripChars
      rw [List.append_assoc, hfront,
        sback_append_of_ne_nil _ _ (by
          rw [hS]
          intro hEq
          exact sep_ne_nil sep hsep (List.append_eq_nil.1 hEq).1),
        hS, ← List.append_assoc]
    have hfold : separators.foldl sepPass ((c :: s1) ++ sep ++ sback t)
        = sback (c :: s1) :=
      foldl_sepPass_cut c s1 sep hc hcleand hsep separators
        (fun q hq => hq) hsep (sback t)
    unfold extractPrimaryCommand
    rw [hu]
    rw [if_neg (show ¬(((c :: s1) ++ sep ++ sback t).isEmpty = true) by simp),
      if_neg (show ¬((stripChars s).isEmpty = true) by
        simpa [List.isEmpty_iff] using hne)]
    rw [hfold, hfold0, ← hs0]
  · have hkey : stripChars (s ++ sep ++ t) = stripChars s := by
      unfold stripChars
      rw [List.append_assoc, hfront, sback_append_allws _ _ hallws, hd]
    unfold extractPrimaryCommand
    rw [hkey]

theorem c5_witness :
    extractPrimaryCommand
        ("FOO=1 dpkg-buildpackage -us -uc".data ++ "&&".data ++ " echo done".data)
      = extractPrimaryCommand "FOO=1 dpkg-buildpackage -us -uc".data
    ∧ extractPrimaryCommand "FOO=1 dpkg-buildpackage -us -uc".data
      = some "dpkg-buildpackage".data := by
  refine ⟨c5_trailing_segments "FOO=1 dpkg-buildpackage -us -uc".data
    "&&".data " echo done".data (by decide) (by decide) (by decide), by decide⟩

end DebIDE
